import Mathlib

set_option maxRecDepth 40000

/-! Shallow embedding of the csv-ledger repository: the `Ledger` state machine
from src/lib/src/ledger.rs and the nom-based row decoder from src/src/parse.rs.
The Rust maps (`HashMap<u16, ClientData>`, `BTreeMap<u32, i64>`) are modelled as
association lists over `Nat` keys; `i64` amounts are modelled as `Int`. -/

/-- Association-list model of map lookup (`HashMap::get` / `BTreeMap::remove`
probe): the value of the first entry with the given key. -/
def mapFind? {β : Type} (k : Nat) : List (Nat × β) → Option β
  | [] => none
  | p :: m => if p.1 = k then some p.2 else mapFind? k m

/-- Association-list model of map removal (`BTreeMap::remove`): drops the first
entry with the given key.  On lists without duplicate keys this is exactly the
map-removal of the Rust code. -/
def mapErase {β : Type} (k : Nat) : List (Nat × β) → List (Nat × β)
  | [] => []
  | p :: m => if p.1 = k then m else p :: mapErase k m

/-- Association-list model of map insertion (`insert`): the new binding replaces
any previous binding for the same key. -/
def mapInsert {β : Type} (k : Nat) (v : β) (m : List (Nat × β)) : List (Nat × β) :=
  (k, v) :: mapErase k m

/-- Model of `get_mut` followed by in-place mutation of the found entry: the
first entry with the given key is rewritten by `f`, keeping its position. -/
def mapAdjust {β : Type} (k : Nat) (f : β → β) : List (Nat × β) → List (Nat × β)
  | [] => []
  | p :: m => if p.1 = k then (p.1, f p.2) :: m else p :: mapAdjust k f m

/-- `ClientData` of src/lib/src/ledger.rs: one client account. -/
structure ClientData where
  held : List (Nat × Int)
  available : Int
  total : Int
  locked : Bool
deriving DecidableEq

/-- `Ledger` of src/lib/src/ledger.rs: all client accounts plus the global
table of not-yet-disputed transactions. -/
structure Ledger where
  clients : List (Nat × ClientData)
  transactions : List (Nat × Int)
deriving DecidableEq

/-- `Ledger::default()`: both maps empty. -/
def Ledger.default : Ledger := ⟨[], []⟩

/-- `ClientData::new` (src/lib/src/ledger.rs lines 174-183). -/
def ClientData.new (amount : Int) : ClientData :=
  { held := [], available := amount, total := amount, locked := false }

/-- Sum of the values of a held table (`self.held.values().sum()`). -/
def heldSum (m : List (Nat × Int)) : Int := (m.map Prod.snd).sum

/-- `Ledger::insert_transaction` (src/lib/src/ledger.rs lines 101-112). -/
def Ledger.insert_transaction (l : Ledger) (client_id transaction_id : Nat)
    (amount : Int) : Ledger :=
  match mapFind? client_id l.clients with
  | some client =>
    if client.locked then l
    else
      { l with
        clients := mapAdjust client_id
          (fun c => { c with total := c.total + amount,
                             available := c.available + amount }) l.clients,
        transactions := mapInsert transaction_id amount l.transactions }
  | none =>
      { l with
        clients := mapInsert client_id (ClientData.new amount) l.clients,
        transactions := mapInsert transaction_id amount l.transactions }

/-- `Ledger::hold` (src/lib/src/ledger.rs lines 115-125): dispute. -/
def Ledger.hold (l : Ledger) (client_id transaction_id : Nat) : Ledger :=
  match mapFind? client_id l.clients with
  | none => l
  | some _ =>
    match mapFind? transaction_id l.transactions with
    | none => l
    | some amount =>
      { l with
        transactions := mapErase transaction_id l.transactions,
        clients := mapAdjust client_id
          (fun c => { c with available := c.available - amount,
                             held := mapInsert transaction_id amount c.held }) l.clients }

/-- `Ledger::resolve` (src/lib/src/ledger.rs lines 128-135). -/
def Ledger.resolve (l : Ledger) (client_id transaction_id : Nat) : Ledger :=
  match mapFind? client_id l.clients with
  | none => l
  | some client =>
    match mapFind? transaction_id client.held with
    | none => l
    | some amount =>
      { l with
        clients := mapAdjust client_id
          (fun c => { c with held := mapErase transaction_id c.held,
                             available := c.available + amount }) l.clients }

/-- `Ledger::chageback` (src/lib/src/ledger.rs lines 138-146). -/
def Ledger.chageback (l : Ledger) (client_id transaction_id : Nat) : Ledger :=
  match mapFind? client_id l.clients with
  | none => l
  | some client =>
    match mapFind? transaction_id client.held with
    | none => l
    | some amount =>
      { l with
        clients := mapAdjust client_id
          (fun c => { c with held := mapErase transaction_id c.held,
                             total := c.total - amount,
                             locked := true }) l.clients }

/-- A run of `k` zero characters, used for zero padding. -/
def padZeros (k : Nat) : String := String.mk (List.replicate k '0')

/-- Rust `format!("{:04}", n)` on an `i64`: sign-aware zero padding to a total
width of 4 (the minus sign counts towards the width and precedes the zeros). -/
def rustPadZero4 (n : Int) : String :=
  if n < 0 then
    if (toString n.natAbs).length + 1 < 4 then
      "-" ++ padZeros (3 - (toString n.natAbs).length) ++ toString n.natAbs
    else "-" ++ toString n.natAbs
  else
    if (toString n.natAbs).length < 4 then
      padZeros (4 - (toString n.natAbs).length) ++ toString n.natAbs
    else toString n.natAbs

/-- `dp_string` (src/lib/src/ledger.rs lines 199-201):
`format!("{}.{:04}", amount / 10000, amount % 10000)`.  Rust `i64` division
truncates towards zero and `%` takes the sign of the dividend, so they are
`Int.tdiv` and `Int.tmod`. -/
def dp_string (amount : Int) : String :=
  toString (Int.tdiv amount 10000) ++ "." ++ rustPadZero4 (Int.tmod amount 10000)

/-- Rust `Display` of `bool`. -/
def boolDisplay (b : Bool) : String := if b then "true" else "false"

/-- `Display for ClientData` (src/lib/src/ledger.rs lines 185-196):
`"{}, {}, {}, {}"` of available, sum of held values, total, locked. -/
def ClientData.display (cd : ClientData) : String :=
  dp_string cd.available ++ ", " ++ dp_string (heldSum cd.held) ++ ", " ++
    dp_string cd.total ++ ", " ++ boolDisplay cd.locked

/-- Rendering of one numeric field as the spec describes it:
`<value/10000>.<abs(value%10000) zero-padded to 4 digits>`.  Stated from the
spec wording to compare against `dp_string`. -/
def specPad4 (m : Nat) : String :=
  if (toString m).length < 4 then
    padZeros (4 - (toString m).length) ++ toString m
  else toString m

/-- The spec's wording of the numeric rendering, for comparison with
`dp_string`. -/
def spec_render (v : Int) : String :=
  toString (Int.tdiv v 10000) ++ "." ++ specPad4 (Int.tmod v 10000).natAbs

/-! ## The decoder (src/src/parse.rs)

Parsers work on `List Char` and return `none` for any nom error (`Error`,
`Failure` or `Incomplete`); the claims only distinguish success from error. -/

/-- nom `multispace0`: drop leading spaces, tabs, carriage returns, newlines. -/
def isMultispace (c : Char) : Bool :=
  c = ' ' || c = '\t' || c = '\r' || c = '\n'

/-- Drop the longest multispace prefix. -/
def multispace0 (s : List Char) : List Char := s.dropWhile isMultispace

/-- nom `tag`: match an exact prefix, returning the rest of the input. -/
def tagP (t : String) (s : List Char) : Option (List Char) :=
  if t.toList.isPrefixOf s then some (s.drop t.toList.length) else none

/-- `digit` (src/src/parse.rs lines 74-76): ASCII decimal digit test. -/
def digit (c : Char) : Bool := c.isDigit

/-- Numeric value of a string of decimal digits (Rust `str::parse`). -/
def digitsToNat (ds : List Char) : Nat :=
  ds.foldl (fun a c => a * 10 + (c.toNat - 48)) 0

/-- `double(input, None)` (src/src/parse.rs lines 79-91): `take_while(digit)`
followed by `str::parse::<i64>`, which fails on the empty string and on values
above `i64::MAX`. -/
def double_all (s : List Char) : Option (List Char × Int) :=
  if (s.takeWhile digit).isEmpty then none
  else if digitsToNat (s.takeWhile digit) ≤ 9223372036854775807 then
    some (s.drop (s.takeWhile digit).length, (digitsToNat (s.takeWhile digit) : Int))
  else none

/-- `double(input, Some(4))`: `take_while_m_n(1, 4, digit)` followed by
`str::parse::<i64>` (which always succeeds on 1-4 digits). -/
def double_m4 (s : List Char) : Option (List Char × Int) :=
  if ((s.takeWhile digit).take 4).isEmpty then none
  else
    some (s.drop ((s.takeWhile digit).take 4).length,
      (digitsToNat ((s.takeWhile digit).take 4) : Int))

/-- `checked_ilog10().unwrap_or(0)` of the fractional value.  The fractional
value comes from at most 4 digit characters, so it is between 0 and 9999, and
the decade test chain below is exact on that range. -/
def ilog10or0 (n : Int) : Nat :=
  if n < 10 then 0 else if n < 100 then 1 else if n < 1000 then 2 else 3

/-- `four_dp` (src/src/parse.rs lines 95-110): integer part, then optionally a
dot and 1-4 fractional digits; the result is
`pre * 10000 + post * 10 ^ (3 - ilog10(post))`. -/
def four_dp (s : List Char) : Option (List Char × Int) :=
  match double_all s with
  | none => none
  | some (r, pre) =>
    match tagP "." r with
    | some r2 =>
      match double_m4 r2 with
      | none => none
      | some (r3, post) =>
        some (r3, pre * 10000 + post * 10 ^ (3 - ilog10or0 post))
    | none => some (r, pre * 10000)

/-- The amount the spec's grammar sentence assigns to the decimal text with the
given integer-part and fraction-part digits:
`integer_part * 10000 + fractional_part_scaled_to_4_digits`.  Stated from the
spec wording to compare against `four_dp`. -/
def spec_amount_value (intPart fracPart : List Char) : Int :=
  (digitsToNat intPart : Int) * 10000 +
    (digitsToNat fracPart : Int) * 10 ^ (4 - fracPart.length)

/-- `Transaction` (src/src/parse.rs lines 46-53). -/
inductive Transaction where
  | Deposit (client tx : Nat) (amount : Int)
  | Withdrawal (client tx : Nat) (amount : Int)
  | Dispute (client tx : Nat)
  | Resolve (client tx : Nat)
  | Chargeback (client tx : Nat)
deriving DecidableEq

/-- `alt((tag("deposit"), ..., tag("chargeback")))`: first matching keyword. -/
def alt_keyword (s : List Char) : Option (List Char × String) :=
  match tagP "deposit" s with
  | some r => some (r, "deposit")
  | none =>
  match tagP "withdrawal" s with
  | some r => some (r, "withdrawal")
  | none =>
  match tagP "dispute" s with
  | some r => some (r, "dispute")
  | none =>
  match tagP "resolve" s with
  | some r => some (r, "resolve")
  | none =>
  match tagP "chargeback" s with
  | some r => some (r, "chargeback")
  | none => none

/-- `terminated(ws(alt(...)), tag(","))`: keyword with surrounding whitespace,
then a comma. -/
def parse_keyword (s : List Char) : Option (List Char × String) :=
  match alt_keyword (multispace0 s) with
  | none => none
  | some (r, k) =>
    match tagP "," (multispace0 r) with
    | none => none
    | some r2 => some (r2, k)

/-- nom `character::complete::u16` / `u32`: one or more decimal digits whose
value must stay below the bound. -/
def nomUint (bound : Nat) (s : List Char) : Option (List Char × Nat) :=
  if (s.takeWhile digit).isEmpty then none
  else if digitsToNat (s.takeWhile digit) < bound then
    some (s.drop (s.takeWhile digit).length, digitsToNat (s.takeWhile digit))
  else none

/-- `terminated(ws(u16), tag(","))` (and the `u32` variant). -/
def parse_uint_comma (bound : Nat) (s : List Char) : Option (List Char × Nat) :=
  match nomUint bound (multispace0 s) with
  | none => none
  | some (r, n) =>
    match tagP "," (multispace0 r) with
    | none => none
    | some r2 => some (r2, n)

/-- `delimited(multispace0, four_dp, multispace0)`: the optional amount. -/
def parse_amount (s : List Char) : Option (List Char × Int) :=
  match four_dp (multispace0 s) with
  | none => none
  | some (r, v) => some (multispace0 r, v)

/-- `parse_transaction` (src/src/parse.rs lines 134-172).  The leftover-input
check runs only when the amount parser succeeded, exactly as in the source
(`if let Some((input, _)) = amount && !input.is_empty()`). -/
def parse_transaction (s : List Char) : Option Transaction :=
  match parse_keyword s with
  | none => none
  | some (s1, key) =>
  match parse_uint_comma 65536 s1 with
  | none => none
  | some (s2, client) =>
  match parse_uint_comma 4294967296 s2 with
  | none => none
  | some (s3, tx) =>
  match parse_amount s3 with
  | some (rest, v) =>
    if rest.isEmpty then
      if key = "deposit" then some (.Deposit client tx v)
      else if key = "withdrawal" then some (.Withdrawal client tx v)
      else none
    else none
  | none =>
    if key = "dispute" then some (.Dispute client tx)
    else if key = "resolve" then some (.Resolve client tx)
    else if key = "chargeback" then some (.Chargeback client tx)
    else none

/-- `parse_header` (src/src/parse.rs lines 185-196): the four tokens `type`,
`client`, `tx`, `amount` separated by commas, whitespace tolerated, and the
input must be fully consumed. -/
def parse_header (s : List Char) : Bool :=
  match tagP "type" (multispace0 s) with
  | none => false
  | some r1 =>
  match tagP "," (multispace0 r1) with
  | none => false
  | some r2 =>
  match tagP "client" (multispace0 r2) with
  | none => false
  | some r3 =>
  match tagP "," (multispace0 r3) with
  | none => false
  | some r4 =>
  match tagP "tx" (multispace0 r4) with
  | none => false
  | some r5 =>
  match tagP "," (multispace0 r5) with
  | none => false
  | some r6 =>
  match tagP "amount" (multispace0 r6) with
  | none => false
  | some r7 => (multispace0 r7).isEmpty

/-- The dispatch of one parsed row inside `Ledger::consume_csv`
(src/lib/src/ledger.rs lines 72-78): withdrawals are applied with a negated
amount. -/
def applyTx (l : Ledger) : Transaction → Ledger
  | .Deposit c t a => l.insert_transaction c t a
  | .Withdrawal c t a => l.insert_transaction c t (-a)
  | .Dispute c t => l.hold c t
  | .Resolve c t => l.resolve c t
  | .Chargeback c t => l.chageback c t

/-- Apply a list of already-decoded events in order. -/
def applyTxs (evs : List Transaction) (l : Ledger) : Ledger :=
  evs.foldl applyTx l

/-- Rust `res.trim().is_empty()`: the line consists of whitespace only. -/
def blankLine (s : List Char) : Bool := s.all isMultispace

/-- The data rows of `Ledger::consume_csv`: blank lines are skipped, every
other line must decode, and rows are applied strictly in order. -/
def consume_lines : List String → Ledger → Option Ledger
  | [], l => some l
  | line :: rest, l =>
    if blankLine line.toList then consume_lines rest l
    else
      match parse_transaction line.toList with
      | none => none
      | some t => consume_lines rest (applyTx l t)

/-- `Ledger::consume_csv` (src/lib/src/ledger.rs lines 60-84) on the list of
lines of the file: the first line must be a valid header, the rest are data
rows. -/
def consume_csv (lines : List String) (l : Ledger) : Option Ledger :=
  match lines with
  | [] => none
  | header :: rest =>
    if parse_header header.toList then consume_lines rest l else none

/-- The tx ids of the deposit/withdrawal events of a list, in order: these are
the ids fed to `Ledger::insert_transaction`. -/
def insertTxIds : List Transaction → List Nat
  | [] => []
  | .Deposit _ t _ :: r => t :: insertTxIds r
  | .Withdrawal _ t _ :: r => t :: insertTxIds r
  | .Dispute _ _ :: r => insertTxIds r
  | .Resolve _ _ :: r => insertTxIds r
  | .Chargeback _ _ :: r => insertTxIds r

/-- The spec's per-account balance invariant: `total == available + held`,
where `held` is the sum of the amounts in the account's held table. -/
def LedgerBalanced (l : Ledger) : Prop :=
  ∀ c cd, mapFind? c l.clients = some cd → cd.total = cd.available + heldSum cd.held

/-- A tx id in the global table is in no account's held table (the spec's "a
tx id lives in at most one of the tables"). -/
def HeldApart (l : Ledger) : Prop :=
  ∀ t, (mapFind? t l.transactions).isSome →
    ∀ c cd, mapFind? c l.clients = some cd → mapFind? t cd.held = none

/-- The association list representing the global `BTreeMap` has no duplicate
keys (true of every list that represents an actual map). -/
def TxKeysNodup (l : Ledger) : Prop := (l.transactions.map Prod.fst).Nodup

/-- The inductive invariant used to settle the balance claim. -/
def LedgerInv (l : Ledger) : Prop := LedgerBalanced l ∧ HeldApart l ∧ TxKeysNodup l

/-- A tx id is used by a state when it occurs in the global table or in some
account's held table. -/
def usedTx (l : Ledger) (t : Nat) : Prop :=
  (mapFind? t l.transactions).isSome ∨
    ∃ c cd, mapFind? c l.clients = some cd ∧ (mapFind? t cd.held).isSome

/-- Event sequence breaking the unrestricted balance claim: the tx id 1 is
reused by the second deposit while the first deposit is still held, so the
second dispute overwrites the held entry. -/
def c1CexEvents : List Transaction :=
  [.Deposit 1 1 10000, .Dispute 1 1, .Deposit 1 1 10000, .Dispute 1 1]

/-- A small event sequence with distinct deposit tx ids, used to witness the
amended balance claim. -/
def c1WitEvents : List Transaction :=
  [.Deposit 1 1 5, .Dispute 1 1, .Resolve 1 1]

/-- The lines of the spec's Scenario B. -/
def scenarioB : List String :=
  ["type, client, tx, amount", "deposit, 2, 3, 113.1112",
   "dispute, 2, 3,", "chargeback, 2, 3,"]

/-- A one-client state with a locked account, used to witness the locked
no-op claim. -/
def c2WitState : Ledger := ⟨[(1, ⟨[], 5, 7, true⟩)], []⟩

/-- A one-client state with one undisputed transaction, used to witness the
dispute idempotence claim. -/
def c3WitState : Ledger := ⟨[(1, ⟨[], 5, 5, false⟩)], [(7, 5)]⟩

/-- A two-client state where tx 1 belongs to client 1, used to witness that
disputes perform no ownership check. -/
def c9WitState : Ledger :=
  ⟨[(1, ⟨[], 5, 5, false⟩), (2, ⟨[], 7, 7, false⟩)], [(1, 5), (2, 7)]⟩

/-- A locked account with one held tx and one undisputed tx, used to witness
that locking does not freeze the dispute workflow. -/
def c10WitState : Ledger := ⟨[(1, ⟨[(2, 5)], 10, 15, true⟩)], [(3, 7)]⟩

/-! ## Association-list map lemmas -/

theorem mapFind?_none_iff {β : Type} (k : Nat) (m : List (Nat × β)) :
    mapFind? k m = none ↔ k ∉ m.map Prod.fst := by
  induction m with
  | nil => simp [mapFind?]
  | cons p m ih =>
    obtain ⟨a, b⟩ := p
    simp only [mapFind?, List.map_cons, List.mem_cons]
    by_cases h : a = k
    · simp [h]
    · have h2 : ¬ k = a := fun hh => h hh.symm
      simp [h, h2, ih]

theorem mapErase_of_none {β : Type} {k : Nat} {m : List (Nat × β)}
    (h : mapFind? k m = none) : mapErase k m = m := by
  induction m with
  | nil => rfl
  | cons p m ih =>
    obtain ⟨a, b⟩ := p
    by_cases hp : a = k
    · simp [mapFind?, hp] at h
    · simp only [mapFind?, hp, if_false] at h
      simp [mapErase, hp, ih h]

theorem mapFind?_mapErase_ne {β : Type} {k' k : Nat} (m : List (Nat × β))
    (h : k' ≠ k) : mapFind? k' (mapErase k m) = mapFind? k' m := by
  induction m with
  | nil => rfl
  | cons p m ih =>
    obtain ⟨a, b⟩ := p
    by_cases hp : a = k
    · have h2 : ¬ a = k' := by rw [hp]; exact fun hh => h hh.symm
      have h3 : ¬ k = k' := fun hh => h hh.symm
      simp [mapErase, mapFind?, hp, h2, h3]
    · by_cases hq : a = k'
      · simp [mapErase, mapFind?, hp, hq, h]
      · simp [mapErase, mapFind?, hp, hq, ih]

theorem mapFind?_mapErase_none {β : Type} {k' k : Nat} {m : List (Nat × β)}
    (h : mapFind? k' m = none) : mapFind? k' (mapErase k m) = none := by
  by_cases hk : k' = k
  · subst hk; rw [mapErase_of_none h]; exact h
  · rw [mapFind?_mapErase_ne m hk]; exact h

theorem isSome_of_mapErase {β : Type} {k' k : Nat} {m : List (Nat × β)}
    (h : (mapFind? k' (mapErase k m)).isSome) : (mapFind? k' m).isSome := by
  cases hm : mapFind? k' m with
  | some v => rfl
  | none => rw [mapFind?_mapErase_none hm] at h; exact absurd h (by simp)

theorem keys_mapErase_sublist {β : Type} (k : Nat) (m : List (Nat × β)) :
    ((mapErase k m).map Prod.fst).Sublist (m.map Prod.fst) := by
  induction m with
  | nil => simp [mapErase]
  | cons p m ih =>
    obtain ⟨a, b⟩ := p
    by_cases hp : a = k
    · simp only [mapErase, hp, if_true, List.map_cons]
      exact List.sublist_cons_self _ _
    · simp only [mapErase, hp, if_false, List.map_cons]
      exact List.Sublist.cons₂ a ih

theorem nodup_keys_mapErase {β : Type} {k : Nat} {m : List (Nat × β)}
    (h : (m.map Prod.fst).Nodup) : ((mapErase k m).map Prod.fst).Nodup :=
  h.sublist (keys_mapErase_sublist k m)

theorem mapFind?_mapErase_self {β : Type} {k : Nat} {m : List (Nat × β)}
    (h : (m.map Prod.fst).Nodup) : mapFind? k (mapErase k m) = none := by
  induction m with
  | nil => rfl
  | cons p m ih =>
    obtain ⟨a, b⟩ := p
    simp only [List.map_cons, List.nodup_cons] at h
    by_cases hp : a = k
    · subst hp
      exact (mapFind?_none_iff _ _).mpr (by simpa [mapErase] using h.1)
    · simp [mapErase, mapFind?, hp, ih h.2]

theorem nodup_keys_mapInsert {β : Type} {k : Nat} (v : β) {m : List (Nat × β)}
    (h : (m.map Prod.fst).Nodup) : ((mapInsert k v m).map Prod.fst).Nodup := by
  simp only [mapInsert, List.map_cons, List.nodup_cons]
  exact ⟨(mapFind?_none_iff _ _).mp (mapFind?_mapErase_self h), nodup_keys_mapErase h⟩

theorem mapFind?_mapInsert_self {β : Type} (k : Nat) (v : β) (m : List (Nat × β)) :
    mapFind? k (mapInsert k v m) = some v := by
  simp [mapInsert, mapFind?]

theorem mapFind?_mapInsert_ne {β : Type} {k' k : Nat} (v : β) (m : List (Nat × β))
    (h : k' ≠ k) : mapFind? k' (mapInsert k v m) = mapFind? k' m := by
  have h2 : ¬ k = k' := fun hh => h hh.symm
  simp only [mapInsert, mapFind?, h2, if_false]
  exact mapFind?_mapErase_ne m h

theorem heldSum_cons (k : Nat) (v : Int) (m : List (Nat × Int)) :
    heldSum ((k, v) :: m) = v + heldSum m := by
  simp [heldSum]

theorem heldSum_mapErase {k : Nat} {a : Int} {m : List (Nat × Int)}
    (h : mapFind? k m = some a) : heldSum (mapErase k m) = heldSum m - a := by
  induction m with
  | nil => simp [mapFind?] at h
  | cons p m ih =>
    obtain ⟨k1, v1⟩ := p
    by_cases hp : k1 = k
    · have hv : v1 = a := by simpa [mapFind?, hp] using h
      subst hv
      simp [mapErase, hp, heldSum_cons]
    · simp only [mapFind?, hp, if_false] at h
      simp [mapErase, hp, heldSum_cons, ih h]
      omega

theorem heldSum_mapInsert_of_none {k : Nat} (v : Int) {m : List (Nat × Int)}
    (h : mapFind? k m = none) : heldSum (mapInsert k v m) = v + heldSum m := by
  simp [mapInsert, mapErase_of_none h, heldSum_cons]

theorem mapFind?_mapAdjust {β : Type} (k' k : Nat) (f : β → β) (m : List (Nat × β)) :
    mapFind? k' (mapAdjust k f m) =
      if k' = k then Option.map f (mapFind? k m) else mapFind? k' m := by
  induction m with
  | nil => by_cases h : k' = k <;> simp [mapAdjust, mapFind?, h]
  | cons p m ih =>
    obtain ⟨a, b⟩ := p
    by_cases hp : a = k
    · by_cases hq : k' = k
      · simp [mapAdjust, mapFind?, hp, hq]
      · have h2 : ¬ a = k' := by rw [hp]; exact fun hh => hq hh.symm
        have h4 : ¬ k = k' := fun hh => hq hh.symm
        simp [mapAdjust, mapFind?, hp, h2, hq, h4]
    · by_cases hq : a = k'
      · have h3 : ¬ k' = k := by rw [← hq]; exact fun hh => hp hh
        simp [mapAdjust, mapFind?, hp, hq, h3]
      · simp [mapAdjust, mapFind?, hp, hq, ih]

/-! ## Equations for the ledger operations -/

theorem insert_transaction_locked {l : Ledger} {c : Nat} {cd : ClientData}
    (hc : mapFind? c l.clients = some cd) (hl : cd.locked = true) (t : Nat) (a : Int) :
    l.insert_transaction c t a = l := by
  unfold Ledger.insert_transaction
  rw [hc]
  simp [hl]

theorem insert_transaction_unlocked {l : Ledger} {c : Nat} {cd : ClientData}
    (hc : mapFind? c l.clients = some cd) (hl : cd.locked = false) (t : Nat) (a : Int) :
    l.insert_transaction c t a =
      { clients := mapAdjust c
          (fun x => { x with total := x.total + a, available := x.available + a }) l.clients,
        transactions := mapInsert t a l.transactions } := by
  unfold Ledger.insert_transaction
  rw [hc]
  simp [hl]

theorem insert_transaction_new {l : Ledger} {c : Nat}
    (hc : mapFind? c l.clients = none) (t : Nat) (a : Int) :
    l.insert_transaction c t a =
      { clients := mapInsert c (ClientData.new a) l.clients,
        transactions := mapInsert t a l.transactions } := by
  unfold Ledger.insert_transaction
  rw [hc]

theorem hold_no_client {l : Ledger} {c : Nat}
    (hc : mapFind? c l.clients = none) (t : Nat) : l.hold c t = l := by
  unfold Ledger.hold
  rw [hc]

theorem hold_no_tx {l : Ledger} {t : Nat}
    (ht : mapFind? t l.transactions = none) (c : Nat) : l.hold c t = l := by
  unfold Ledger.hold
  cases hc : mapFind? c l.clients with
  | none => rfl
  | some cd => rw [ht]

theorem hold_eq {l : Ledger} {c t : Nat} {cd : ClientData} {a : Int}
    (hc : mapFind? c l.clients = some cd)
    (ht : mapFind? t l.transactions = some a) :
    l.hold c t =
      { clients := mapAdjust c
          (fun x => { x with available := x.available - a,
                             held := mapInsert t a x.held }) l.clients,
        transactions := mapErase t l.transactions } := by
  unfold Ledger.hold
  rw [hc, ht]

theorem resolve_no_client {l : Ledger} {c : Nat}
    (hc : mapFind? c l.clients = none) (t : Nat) : l.resolve c t = l := by
  unfold Ledger.resolve
  rw [hc]

theorem resolve_no_held {l : Ledger} {c t : Nat} {cd : ClientData}
    (hc : mapFind? c l.clients = some cd)
    (ht : mapFind? t cd.held = none) : l.resolve c t = l := by
  unfold Ledger.resolve
  rw [hc]
  dsimp only
  rw [ht]

theorem resolve_eq {l : Ledger} {c t : Nat} {cd : ClientData} {a : Int}
    (hc : mapFind? c l.clients = some cd)
    (ht : mapFind? t cd.held = some a) :
    l.resolve c t =
      { clients := mapAdjust c
          (fun x => { x with held := mapErase t x.held,
                             available := x.available + a }) l.clients,
        transactions := l.transactions } := by
  unfold Ledger.resolve
  rw [hc]
  dsimp only
  rw [ht]

theorem chageback_no_client {l : Ledger} {c : Nat}
    (hc : mapFind? c l.clients = none) (t : Nat) : l.chageback c t = l := by
  unfold Ledger.chageback
  rw [hc]

theorem chageback_no_held {l : Ledger} {c t : Nat} {cd : ClientData}
    (hc : mapFind? c l.clients = some cd)
    (ht : mapFind? t cd.held = none) : l.chageback c t = l := by
  unfold Ledger.chageback
  rw [hc]
  dsimp only
  rw [ht]

theorem chageback_eq {l : Ledger} {c t : Nat} {cd : ClientData} {a : Int}
    (hc : mapFind? c l.clients = some cd)
    (ht : mapFind? t cd.held = some a) :
    l.chageback c t =
      { clients := mapAdjust c
          (fun x => { x with held := mapErase t x.held,
                             total := x.total - a,
                             locked := true }) l.clients,
        transactions := l.transactions } := by
  unfold Ledger.chageback
  rw [hc]
  dsimp only
  rw [ht]

/-! ## Preservation of the inductive invariant -/

theorem heldSum_nil : heldSum [] = 0 := rfl

theorem not_usedTx_held {l : Ledger} {t : Nat} (hfresh : ¬ usedTx l t)
    {c : Nat} {cd : ClientData} (hc : mapFind? c l.clients = some cd) :
    mapFind? t cd.held = none := by
  cases hm : mapFind? t cd.held with
  | none => rfl
  | some v => exact absurd (Or.inr ⟨c, cd, hc, by rw [hm]; rfl⟩) hfresh

theorem not_usedTx_trans {l : Ledger} {t : Nat} (hfresh : ¬ usedTx l t) :
    mapFind? t l.transactions = none := by
  cases hm : mapFind? t l.transactions with
  | none => rfl
  | some v => exact absurd (Or.inl (by rw [hm]; rfl)) hfresh

theorem inv_default : LedgerInv Ledger.default := by
  refine ⟨?_, ?_, ?_⟩
  · intro c cd hc; simp [Ledger.default, mapFind?] at hc
  · intro t ht; simp [Ledger.default, mapFind?] at ht
  · simp [TxKeysNodup, Ledger.default]

theorem inv_insert {l : Ledger} {t : Nat} (c : Nat) (a : Int)
    (hinv : LedgerInv l) (hfresh : ¬ usedTx l t) :
    LedgerInv (l.insert_transaction c t a) := by
  obtain ⟨hbal, hapart, hnd⟩ := hinv
  cases hc : mapFind? c l.clients with
  | some cd =>
    cases hl : cd.locked with
    | true => rw [insert_transaction_locked hc hl]; exact ⟨hbal, hapart, hnd⟩
    | false =>
      rw [insert_transaction_unlocked hc hl]
      refine ⟨?_, ?_, ?_⟩
      · intro c' cd' hc'
        dsimp only at hc'
        rw [mapFind?_mapAdjust] at hc'
        by_cases hcc : c' = c
        · subst hcc
          rw [if_pos rfl, hc] at hc'
          simp at hc'
          subst hc'
          dsimp only
          have := hbal c' cd hc
          omega
        · rw [if_neg hcc] at hc'
          exact hbal c' cd' hc'
      · intro t' ht' c' cd' hc'
        dsimp only at ht' hc'
        rw [mapFind?_mapAdjust] at hc'
        by_cases htt : t' = t
        · subst htt
          by_cases hcc : c' = c
          · subst hcc
            rw [if_pos rfl, hc] at hc'
            simp at hc'
            subst hc'
            dsimp only
            exact not_usedTx_held hfresh hc
          · rw [if_neg hcc] at hc'
            exact not_usedTx_held hfresh hc'
        · rw [mapFind?_mapInsert_ne _ _ htt] at ht'
          by_cases hcc : c' = c
          · subst hcc
            rw [if_pos rfl, hc] at hc'
            simp at hc'
            subst hc'
            dsimp only
            exact hapart t' ht' c' cd hc
          · rw [if_neg hcc] at hc'
            exact hapart t' ht' c' cd' hc'
      · exact nodup_keys_mapInsert _ hnd
  | none =>
    rw [insert_transaction_new hc]
    refine ⟨?_, ?_, ?_⟩
    · intro c' cd' hc'
      dsimp only at hc'
      by_cases hcc : c' = c
      · subst hcc
        rw [mapFind?_mapInsert_self] at hc'
        injection hc' with hc'
        subst hc'
        simp [ClientData.new, heldSum_nil]
      · rw [mapFind?_mapInsert_ne _ _ hcc] at hc'
        exact hbal c' cd' hc'
    · intro t' ht' c' cd' hc'
      dsimp only at ht' hc'
      by_cases hcc : c' = c
      · subst hcc
        rw [mapFind?_mapInsert_self] at hc'
        injection hc' with hc'
        subst hc'
        rfl
      · rw [mapFind?_mapInsert_ne _ _ hcc] at hc'
        by_cases htt : t' = t
        · subst htt
          exact not_usedTx_held hfresh hc'
        · rw [mapFind?_mapInsert_ne _ _ htt] at ht'
          exact hapart t' ht' c' cd' hc'
    · exact nodup_keys_mapInsert _ hnd

theorem usedTx_insert {l : Ledger} {c t : Nat} {a : Int} {u : Nat}
    (h : usedTx (l.insert_transaction c t a) u) : usedTx l u ∨ u = t := by
  cases hc : mapFind? c l.clients with
  | some cd =>
    cases hl : cd.locked with
    | true =>
      rw [insert_transaction_locked hc hl] at h
      exact Or.inl h
    | false =>
      rw [insert_transaction_unlocked hc hl] at h
      obtain h | ⟨c', cd', hc', hh⟩ := h
      · dsimp only at h
        by_cases htt : u = t
        · exact Or.inr htt
        · rw [mapFind?_mapInsert_ne _ _ htt] at h
          exact Or.inl (Or.inl h)
      · dsimp only at hc'
        rw [mapFind?_mapAdjust] at hc'
        by_cases hcc : c' = c
        · subst hcc
          rw [if_pos rfl, hc] at hc'
          simp at hc'
          subst hc'
          exact Or.inl (Or.inr ⟨c', cd, hc, hh⟩)
        · rw [if_neg hcc] at hc'
          exact Or.inl (Or.inr ⟨c', cd', hc', hh⟩)
  | none =>
    rw [insert_transaction_new hc] at h
    obtain h | ⟨c', cd', hc', hh⟩ := h
    · dsimp only at h
      by_cases htt : u = t
      · exact Or.inr htt
      · rw [mapFind?_mapInsert_ne _ _ htt] at h
        exact Or.inl (Or.inl h)
    · dsimp only at hc'
      by_cases hcc : c' = c
      · subst hcc
        rw [mapFind?_mapInsert_self] at hc'
        injection hc' with hc'
        subst hc'
        simp [ClientData.new, mapFind?] at hh
      · rw [mapFind?_mapInsert_ne _ _ hcc] at hc'
        exact Or.inl (Or.inr ⟨c', cd', hc', hh⟩)

theorem inv_hold {l : Ledger} (c t : Nat) (hinv : LedgerInv l) :
    LedgerInv (l.hold c t) := by
  obtain ⟨hbal, hapart, hnd⟩ := hinv
  cases hc : mapFind? c l.clients with
  | none => rw [hold_no_client hc]; exact ⟨hbal, hapart, hnd⟩
  | some cd =>
    cases ht : mapFind? t l.transactions with
    | none => rw [hold_no_tx ht]; exact ⟨hbal, hapart, hnd⟩
    | some a =>
      rw [hold_eq hc ht]
      have hheld : mapFind? t cd.held = none :=
        hapart t (by rw [ht]; rfl) c cd hc
      refine ⟨?_, ?_, ?_⟩
      · intro c' cd' hc'
        dsimp only at hc'
        rw [mapFind?_mapAdjust] at hc'
        by_cases hcc : c' = c
        · subst hcc
          rw [if_pos rfl, hc] at hc'
          simp at hc'
          subst hc'
          dsimp only
          rw [heldSum_mapInsert_of_none a hheld]
          have := hbal c' cd hc
          omega
        · rw [if_neg hcc] at hc'
          exact hbal c' cd' hc'
      · intro t' ht' c' cd' hc'
        dsimp only at ht' hc'
        have htt : t' ≠ t := by
          intro hh
          subst hh
          rw [mapFind?_mapErase_self hnd] at ht'
          simp at ht'
        have ht2 : (mapFind? t' l.transactions).isSome := isSome_of_mapErase ht'
        rw [mapFind?_mapAdjust] at hc'
        by_cases hcc : c' = c
        · subst hcc
          rw [if_pos rfl, hc] at hc'
          simp at hc'
          subst hc'
          dsimp only
          rw [mapFind?_mapInsert_ne _ _ htt]
          exact hapart t' ht2 c' cd hc
        · rw [if_neg hcc] at hc'
          exact hapart t' ht2 c' cd' hc'
      · exact nodup_keys_mapErase hnd

theorem usedTx_hold {l : Ledger} {c t u : Nat}
    (h : usedTx (l.hold c t) u) : usedTx l u := by
  cases hc : mapFind? c l.clients with
  | none => rwa [hold_no_client hc] at h
  | some cd =>
    cases ht : mapFind? t l.transactions with
    | none => rwa [hold_no_tx ht] at h
    | some a =>
      rw [hold_eq hc ht] at h
      obtain h | ⟨c', cd', hc', hh⟩ := h
      · dsimp only at h
        exact Or.inl (isSome_of_mapErase h)
      · dsimp only at hc'
        rw [mapFind?_mapAdjust] at hc'
        by_cases hcc : c' = c
        · subst hcc
          rw [if_pos rfl, hc] at hc'
          simp at hc'
          subst hc'
          dsimp only at hh
          by_cases htt : u = t
          · subst htt
            exact Or.inl (by rw [ht]; rfl)
          · rw [mapFind?_mapInsert_ne _ _ htt] at hh
            exact Or.inr ⟨c', cd, hc, hh⟩
        · rw [if_neg hcc] at hc'
          exact Or.inr ⟨c', cd', hc', hh⟩

theorem inv_resolve {l : Ledger} (c t : Nat) (hinv : LedgerInv l) :
    LedgerInv (l.resolve c t) := by
  obtain ⟨hbal, hapart, hnd⟩ := hinv
  cases hc : mapFind? c l.clients with
  | none => rw [resolve_no_client hc]; exact ⟨hbal, hapart, hnd⟩
  | some cd =>
    cases ht : mapFind? t cd.held with
    | none => rw [resolve_no_held hc ht]; exact ⟨hbal, hapart, hnd⟩
    | some a =>
      rw [resolve_eq hc ht]
      refine ⟨?_, ?_, ?_⟩
      · intro c' cd' hc'
        dsimp only at hc'
        rw [mapFind?_mapAdjust] at hc'
        by_cases hcc : c' = c
        · subst hcc
          rw [if_pos rfl, hc] at hc'
          simp at hc'
          subst hc'
          dsimp only
          rw [heldSum_mapErase ht]
          have := hbal c' cd hc
          omega
        · rw [if_neg hcc] at hc'
          exact hbal c' cd' hc'
      · intro t' ht' c' cd' hc'
        dsimp only at ht' hc'
        rw [mapFind?_mapAdjust] at hc'
        by_cases hcc : c' = c
        · subst hcc
          rw [if_pos rfl, hc] at hc'
          simp at hc'
          subst hc'
          dsimp only
          exact mapFind?_mapErase_none (hapart t' ht' c' cd hc)
        · rw [if_neg hcc] at hc'
          exact hapart t' ht' c' cd' hc'
      · exact hnd

theorem usedTx_resolve {l : Ledger} {c t u : Nat}
    (h : usedTx (l.resolve c t) u) : usedTx l u := by
  cases hc : mapFind? c l.clients with
  | none => rwa [resolve_no_client hc] at h
  | some cd =>
    cases ht : mapFind? t cd.held with
    | none => rwa [resolve_no_held hc ht] at h
    | some a =>
      rw [resolve_eq hc ht] at h
      obtain h | ⟨c', cd', hc', hh⟩ := h
      · exact Or.inl h
      · dsimp only at hc'
        rw [mapFind?_mapAdjust] at hc'
        by_cases hcc : c' = c
        · subst hcc
          rw [if_pos rfl, hc] at hc'
          simp at hc'
          subst hc'
          dsimp only at hh
          exact Or.inr ⟨c', cd, hc, isSome_of_mapErase hh⟩
        · rw [if_neg hcc] at hc'
          exact Or.inr ⟨c', cd', hc', hh⟩

theorem inv_chageback {l : Ledger} (c t : Nat) (hinv : LedgerInv l) :
    LedgerInv (l.chageback c t) := by
  obtain ⟨hbal, hapart, hnd⟩ := hinv
  cases hc : mapFind? c l.clients with
  | none => rw [chageback_no_client hc]; exact ⟨hbal, hapart, hnd⟩
  | some cd =>
    cases ht : mapFind? t cd.held with
    | none => rw [chageback_no_held hc ht]; exact ⟨hbal, hapart, hnd⟩
    | some a =>
      rw [chageback_eq hc ht]
      refine ⟨?_, ?_, ?_⟩
      · intro c' cd' hc'
        dsimp only at hc'
        rw [mapFind?_mapAdjust] at hc'
        by_cases hcc : c' = c
        · subst hcc
          rw [if_pos rfl, hc] at hc'
          simp at hc'
          subst hc'
          dsimp only
          rw [heldSum_mapErase ht]
          have := hbal c' cd hc
          omega
        · rw [if_neg hcc] at hc'
          exact hbal c' cd' hc'
      · intro t' ht' c' cd' hc'
        dsimp only at ht' hc'
        rw [mapFind?_mapAdjust] at hc'
        by_cases hcc : c' = c
        · subst hcc
          rw [if_pos rfl, hc] at hc'
          simp at hc'
          subst hc'
          dsimp only
          exact mapFind?_mapErase_none (hapart t' ht' c' cd hc)
        · rw [if_neg hcc] at hc'
          exact hapart t' ht' c' cd' hc'
      · exact hnd

theorem usedTx_chageback {l : Ledger} {c t u : Nat}
    (h : usedTx (l.chageback c t) u) : usedTx l u := by
  cases hc : mapFind? c l.clients with
  | none => rwa [chageback_no_client hc] at h
  | some cd =>
    cases ht : mapFind? t cd.held with
    | none => rwa [chageback_no_held hc ht] at h
    | some a =>
      rw [chageback_eq hc ht] at h
      obtain h | ⟨c', cd', hc', hh⟩ := h
      · exact Or.inl h
      · dsimp only at hc'
        rw [mapFind?_mapAdjust] at hc'
        by_cases hcc : c' = c
        · subst hcc
          rw [if_pos rfl, hc] at hc'
          simp at hc'
          subst hc'
          dsimp only at hh
          exact Or.inr ⟨c', cd, hc, isSome_of_mapErase hh⟩
        · rw [if_neg hcc] at hc'
          exact Or.inr ⟨c', cd', hc', hh⟩

theorem inv_applyTxs : ∀ (evs : List Transaction) (l : Ledger),
    LedgerInv l → (insertTxIds evs).Nodup →
    (∀ u ∈ insertTxIds evs, ¬ usedTx l u) →
    LedgerInv (applyTxs evs l) := by
  intro evs
  induction evs with
  | nil =>
    intro l hinv _ _
    simpa [applyTxs] using hinv
  | cons e evs ih =>
    intro l hinv hnd hfresh
    show LedgerInv (applyTxs evs (applyTx l e))
    cases e with
    | Deposit c t a =>
      have hnd' : (t :: insertTxIds evs).Nodup := by simpa [insertTxIds] using hnd
      have hfr : ∀ u ∈ t :: insertTxIds evs, ¬ usedTx l u := by
        simpa [insertTxIds] using hfresh
      refine ih (l.insert_transaction c t a)
        (inv_insert c a hinv (hfr t (List.mem_cons_self t _)))
        (List.nodup_cons.mp hnd').2 ?_
      intro u hu hused
      rcases usedTx_insert hused with h | h
      · exact hfr u (List.mem_cons_of_mem _ hu) h
      · exact (List.nodup_cons.mp hnd').1 (h ▸ hu)
    | Withdrawal c t a =>
      have hnd' : (t :: insertTxIds evs).Nodup := by simpa [insertTxIds] using hnd
      have hfr : ∀ u ∈ t :: insertTxIds evs, ¬ usedTx l u := by
        simpa [insertTxIds] using hfresh
      refine ih (l.insert_transaction c t (-a))
        (inv_insert c (-a) hinv (hfr t (List.mem_cons_self t _)))
        (List.nodup_cons.mp hnd').2 ?_
      intro u hu hused
      rcases usedTx_insert hused with h | h
      · exact hfr u (List.mem_cons_of_mem _ hu) h
      · exact (List.nodup_cons.mp hnd').1 (h ▸ hu)
    | Dispute c t =>
      refine ih (l.hold c t) (inv_hold c t hinv)
        (by simpa [insertTxIds] using hnd) ?_
      intro u hu hused
      exact hfresh u (by simpa [insertTxIds] using hu) (usedTx_hold hused)
    | Resolve c t =>
      refine ih (l.resolve c t) (inv_resolve c t hinv)
        (by simpa [insertTxIds] using hnd) ?_
      intro u hu hused
      exact hfresh u (by simpa [insertTxIds] using hu) (usedTx_resolve hused)
    | Chargeback c t =>
      refine ih (l.chageback c t) (inv_chageback c t hinv)
        (by simpa [insertTxIds] using hnd) ?_
      intro u hu hused
      exact hfresh u (by simpa [insertTxIds] using hu) (usedTx_chageback hused)

/-! ## Claim theorems -/

/-- Helper: no tx id is used by the initial empty ledger. -/
theorem usedTx_default (u : Nat) : ¬ usedTx Ledger.default u := by
  intro h
  obtain h | ⟨c, cd, hc, _⟩ := h
  · simp [Ledger.default, mapFind?] at h
  · simp [Ledger.default, mapFind?] at hc

/-- Claim C1, counterexample: it is not true that every event sequence applied
from the empty ledger leaves every account with total = available + held sum.
The sequence `c1CexEvents` reuses tx id 1 for its second deposit while the
first deposit is still held, so the second dispute overwrites the held entry
and client 1 ends with total 20000 but available 0 and held sum 10000. -/
theorem c1_counterexample :
    ¬ (∀ (evs : List Transaction) (c : Nat) (cd : ClientData),
        mapFind? c (applyTxs evs Ledger.default).clients = some cd →
        cd.total = cd.available + heldSum cd.held) := by
  intro h
  exact absurd (h c1CexEvents 1 ⟨[(1, 10000)], 0, 20000, false⟩ (by decide)) (by decide)

/-- Claim C1, amended: for every event sequence applied from the empty ledger
in which the deposit/withdrawal tx ids are pairwise distinct (the spec's "tx
is unique across the entire run"), every account satisfies
total = available + sum of its held table. -/
theorem c1_balance_of_nodup (evs : List Transaction) (c : Nat) (cd : ClientData)
    (hnd : (insertTxIds evs).Nodup)
    (hc : mapFind? c (applyTxs evs Ledger.default).clients = some cd) :
    cd.total = cd.available + heldSum cd.held :=
  (inv_applyTxs evs Ledger.default inv_default hnd
    (fun u _ => usedTx_default u)).1 c cd hc

/-- Claim C1, witness: the amended theorem applied to a concrete
deposit/dispute/resolve run. -/
theorem c1_balance_of_nodup_w :
    (insertTxIds c1WitEvents).Nodup ∧
    mapFind? 1 (applyTxs c1WitEvents Ledger.default).clients =
      some ⟨[], 5, 5, false⟩ ∧
    (5 : Int) = 5 + heldSum [] :=
  ⟨by decide, by decide,
    c1_balance_of_nodup c1WitEvents 1 ⟨[], 5, 5, false⟩ (by decide) (by decide)⟩

/-- Claim C2: if account `c` exists and is locked, a deposit or withdrawal for
`c` leaves the whole ledger unchanged; in particular a tx id absent from the
global table stays absent, so a later dispute of it is a no-op. -/
theorem c2_locked_insert_noop (l : Ledger) (c t : Nat) (a : Int) (cd : ClientData)
    (hc : mapFind? c l.clients = some cd) (hl : cd.locked = true)
    (hnone : mapFind? t l.transactions = none) :
    l.insert_transaction c t a = l ∧
    ∀ c2 : Nat, (l.insert_transaction c t a).hold c2 t = l.insert_transaction c t a := by
  have he := insert_transaction_locked hc hl t a
  refine ⟨he, fun c2 => ?_⟩
  rw [he]
  exact hold_no_tx hnone c2

/-- Claim C2, witness: a deposit for the locked client 1 of `c2WitState`
changes nothing and tx 9 stays undisputable. -/
theorem c2_locked_insert_noop_w :
    mapFind? 1 c2WitState.clients = some ⟨[], 5, 7, true⟩ ∧
    (⟨[], 5, 7, true⟩ : ClientData).locked = true ∧
    mapFind? 9 c2WitState.transactions = none ∧
    (c2WitState.insert_transaction 1 9 3 = c2WitState ∧
      ∀ c2 : Nat, (c2WitState.insert_transaction 1 9 3).hold c2 9 =
        c2WitState.insert_transaction 1 9 3) :=
  ⟨by decide, by decide, by decide,
    c2_locked_insert_noop c2WitState 1 9 3 ⟨[], 5, 7, true⟩
      (by decide) (by decide) (by decide)⟩

/-- Claim C3: after a successful dispute (the client has an account and the tx
id is in the global table of a duplicate-free state), the tx id is gone from
the global table and a second dispute of it, by any client, changes nothing. -/
theorem c3_dispute_idempotent (l : Ledger) (c t : Nat) (cd : ClientData) (a : Int)
    (hc : mapFind? c l.clients = some cd)
    (ht : mapFind? t l.transactions = some a)
    (hnd : (l.transactions.map Prod.fst).Nodup) :
    mapFind? t (l.hold c t).transactions = none ∧
    ∀ c2 : Nat, (l.hold c t).hold c2 t = l.hold c t := by
  have hnone : mapFind? t (l.hold c t).transactions = none := by
    rw [hold_eq hc ht]
    exact mapFind?_mapErase_self hnd
  exact ⟨hnone, fun c2 => hold_no_tx hnone c2⟩

/-- Claim C3, witness: disputing tx 7 of `c3WitState` removes it; disputing it
again is a no-op. -/
theorem c3_dispute_idempotent_w :
    mapFind? 1 c3WitState.clients = some ⟨[], 5, 5, false⟩ ∧
    mapFind? 7 c3WitState.transactions = some 5 ∧
    (c3WitState.transactions.map Prod.fst).Nodup ∧
    (mapFind? 7 (c3WitState.hold 1 7).transactions = none ∧
      ∀ c2 : Nat, (c3WitState.hold 1 7).hold c2 7 = c3WitState.hold 1 7) :=
  ⟨by decide, by decide, by decide,
    c3_dispute_idempotent c3WitState 1 7 ⟨[], 5, 5, false⟩ 5
      (by decide) (by decide) (by decide)⟩

/-- Claim C4: evaluation of `four_dp` at the failing input "1.01".  The code
returns 11000 (it scales the fractional value by its decade via
`checked_ilog10`, losing leading zeros), while the spec's encoding of the
decimal text 1.01 is 10100. -/
theorem c4_four_dp_leading_zero :
    four_dp "1.01".toList = some ([], 11000) ∧
    spec_amount_value "1".toList "01".toList = 10100 ∧
    (11000 : Int) ≠ 10100 := by
  refine ⟨by decide, by decide, by decide⟩

/-- Claim C5: evaluation of `parse_transaction` at the failing input
"dispute, 1, 2, xyz".  The trailing garbage "xyz" does not parse as an amount,
so the full-consumption check is skipped and the row is accepted as a dispute
instead of being rejected. -/
theorem c5_trailing_garbage_accepted :
    parse_transaction "dispute, 1, 2, xyz".toList = some (.Dispute 1 2) := by
  decide

/-- Claim C6, counterexample: the rendered field does not always equal the
spec's `<value/10000>.<abs(value%10000) zero-padded to 4 digits>`: at -15000
the code renders "-1.-5000" while the spec's text is "-1.5000". -/
theorem c6_counterexample :
    ¬ (∀ v : Int, dp_string v = spec_render v) := by
  intro h
  exact absurd (h (-15000)) (by decide)

/-- Helper: for a nonnegative remainder the Rust sign-aware zero padding
agrees with the spec's plain 4-digit zero padding. -/
theorem rustPadZero4_nonneg {n : Int} (hn : 0 ≤ n) :
    rustPadZero4 n = specPad4 n.natAbs := by
  unfold rustPadZero4 specPad4
  rw [if_neg (not_lt.mpr hn)]

/-- Claim C6, amended: for every nonnegative scaled value the rendered numeric
field equals the spec's `<value/10000>.<abs(value%10000) zero-padded to 4
digits>` (for negative values the code instead renders the minus sign inside
the fraction); the locked field renders as "true"/"false". -/
theorem c6_render_nonneg (v : Int) (hv : 0 ≤ v) :
    dp_string v = spec_render v ∧
    boolDisplay true = "true" ∧ boolDisplay false = "false" := by
  refine ⟨?_, rfl, rfl⟩
  unfold dp_string spec_render
  rw [rustPadZero4_nonneg (Int.tmod_nonneg 10000 hv)]

/-- Claim C6, witness: the amended theorem at 12345 (rendered "1.2345"). -/
theorem c6_render_nonneg_w :
    (0 : Int) ≤ 12345 ∧
    (dp_string 12345 = spec_render 12345 ∧
      boolDisplay true = "true" ∧ boolDisplay false = "false") :=
  ⟨by decide, c6_render_nonneg 12345 (by decide)⟩

/-- Claim C7: consuming the header and the three rows of Scenario B from the
empty ledger yields exactly one account, client 2, with available 0, held sum
0 (its held table is empty), total 0, locked. -/
theorem c7_scenario_b :
    (consume_csv scenarioB Ledger.default).map Ledger.clients =
      some [(2, ⟨[], 0, 0, true⟩)] ∧ heldSum [] = 0 := by
  refine ⟨by decide, rfl⟩

/-- Claim C8: a dispute naming a client without an account changes nothing at
all: no account is created, no balances change, the global table is intact. -/
theorem c8_dispute_unknown_client (l : Ledger) (c t : Nat)
    (hc : mapFind? c l.clients = none) : l.hold c t = l :=
  hold_no_client hc t

/-- Claim C8, witness: `dispute 9,99` on the empty ledger is a no-op. -/
theorem c8_dispute_unknown_client_w :
    mapFind? 9 Ledger.default.clients = none ∧
    Ledger.default.hold 9 99 = Ledger.default :=
  ⟨by decide, c8_dispute_unknown_client Ledger.default 9 99 (by decide)⟩

/-- Claim C9: a dispute performs no ownership check: whenever client `c` has
an account and tx `t` is in the global table, `hold c t` removes `t` from the
global table, debits `c`'s available by `t`'s amount and inserts `t` into
`c`'s held table, regardless of which client the tx belonged to. -/
theorem c9_no_ownership_check (l : Ledger) (c t : Nat) (cd : ClientData) (a : Int)
    (hc : mapFind? c l.clients = some cd)
    (ht : mapFind? t l.transactions = some a) :
    (l.hold c t).transactions = mapErase t l.transactions ∧
    mapFind? c (l.hold c t).clients =
      some { cd with available := cd.available - a, held := mapInsert t a cd.held } := by
  have he := hold_eq hc ht
  constructor
  · rw [he]
  · rw [he]
    dsimp only
    rw [mapFind?_mapAdjust, if_pos rfl, hc]
    rfl

/-- Claim C9, witness: in `c9WitState`, client 2 disputes tx 1, which was
deposited by client 1, and the dispute still takes full effect on client 2. -/
theorem c9_no_ownership_check_w :
    mapFind? 2 c9WitState.clients = some ⟨[], 7, 7, false⟩ ∧
    mapFind? 1 c9WitState.transactions = some 5 ∧
    ((c9WitState.hold 2 1).transactions = mapErase 1 c9WitState.transactions ∧
      mapFind? 2 (c9WitState.hold 2 1).clients =
        some ⟨mapInsert 1 5 [], 7 - 5, 7, false⟩) :=
  ⟨by decide, by decide,
    c9_no_ownership_check c9WitState 2 1 ⟨[], 7, 7, false⟩ 5 (by decide) (by decide)⟩

/-- Claim C10: locking does not freeze the dispute workflow: on a locked
account, a dispute of a tx still in the global table still debits available,
and resolve/chargeback of a held tx still credit available or debit total ---
none of the three operations tests the locked flag. -/
theorem c10_locked_not_frozen (l : Ledger) (c t1 t2 t3 : Nat) (cd : ClientData)
    (a1 a2 a3 : Int)
    (hc : mapFind? c l.clients = some cd) (hl : cd.locked = true)
    (ht1 : mapFind? t1 l.transactions = some a1)
    (ht2 : mapFind? t2 cd.held = some a2)
    (ht3 : mapFind? t3 cd.held = some a3) :
    mapFind? c (l.hold c t1).clients =
      some { cd with available := cd.available - a1, held := mapInsert t1 a1 cd.held } ∧
    mapFind? c (l.resolve c t2).clients =
      some { cd with held := mapErase t2 cd.held, available := cd.available + a2 } ∧
    mapFind? c (l.chageback c t3).clients =
      some { cd with held := mapErase t3 cd.held, total := cd.total - a3, locked := true } := by
  refine ⟨?_, ?_, ?_⟩
  · rw [hold_eq hc ht1]
    dsimp only
    rw [mapFind?_mapAdjust, if_pos rfl, hc]
    rfl
  · rw [resolve_eq hc ht2]
    dsimp only
    rw [mapFind?_mapAdjust, if_pos rfl, hc]
    rfl
  · rw [chageback_eq hc ht3]
    dsimp only
    rw [mapFind?_mapAdjust, if_pos rfl, hc]
    rfl

/-- Claim C10, witness: on the locked account of `c10WitState`, disputing tx 3
debits available, resolving held tx 2 credits available, and charging back
held tx 2 debits total. -/
theorem c10_locked_not_frozen_w :
    mapFind? 1 c10WitState.clients = some ⟨[(2, 5)], 10, 15, true⟩ ∧
    (⟨[(2, 5)], 10, 15, true⟩ : ClientData).locked = true ∧
    mapFind? 3 c10WitState.transactions = some 7 ∧
    mapFind? 2 ([(2, 5)] : List (Nat × Int)) = some 5 ∧
    (mapFind? 1 (c10WitState.hold 1 3).clients =
        some ⟨mapInsert 3 7 [(2, 5)], 10 - 7, 15, true⟩ ∧
      mapFind? 1 (c10WitState.resolve 1 2).clients =
        some ⟨mapErase 2 [(2, 5)], 10 + 5, 15, true⟩ ∧
      mapFind? 1 (c10WitState.chageback 1 2).clients =
        some ⟨mapErase 2 [(2, 5)], 10, 15 - 5, true⟩) :=
  ⟨by decide, by decide, by decide, by decide,
    c10_locked_not_frozen c10WitState 1 3 2 2 ⟨[(2, 5)], 10, 15, true⟩ 7 5 5
      (by decide) (by decide) (by decide) (by decide) (by decide)⟩
